import Mathlib

/-!
Verification development for the pym2v batched historical-data-fetch
subsystem (`src/pym2v/utils.py` and `src/pym2v/api.py`).

Time instants are embedded as integers (epoch microseconds; Python
`datetime` subtraction and `timedelta` arithmetic are exact at microsecond
resolution). Durations (`timedelta`) are likewise integer microsecond
counts. Signal values are embedded as integers: none of the verified
properties depends on value arithmetic, only on equality of opaque values.
-/

namespace Pym2v

/-! ## Interval splitter (`utils.batch_interval`)

The Python generator is

    left = start
    while left < end:
        right = min(left + max_interval, end)
        yield left, right
        left = right

It is embedded with explicit fuel: `batchIntervalAux maxI e fuel left`
returns the list of yielded `(left, right)` pairs produced within `fuel`
loop iterations together with a flag that is `true` exactly when the loop
exited (i.e. the generator was exhausted) within that fuel.
-/

def batchIntervalAux (maxI e : Int) : Nat → Int → List (Int × Int) × Bool
  | 0, left => if left < e then ([], false) else ([], true)
  | f + 1, left =>
    if left < e then
      let right := min (left + maxI) e
      let rest := batchIntervalAux maxI e f right
      ((left, right) :: rest.1, rest.2)
    else ([], true)

/-- Fuel sufficient to exhaust the generator whenever `maxI > 0`. -/
def batchFuel (start e maxI : Int) : Nat :=
  (e - start).toNat / maxI.toNat + 1

/-- `batch_interval(start, end, max_interval)`: the full list of yielded
intervals (complete whenever `maxI > 0`, see `batchIntervalAux_done`). -/
def batch_interval (start e maxI : Int) : List (Int × Int) :=
  (batchIntervalAux maxI e (batchFuel start e maxI) start).1

/-! Basic facts about the generator loop. -/

theorem batchIntervalAux_done (maxI e : Int) (hm : 0 < maxI) :
    ∀ (f : Nat) (left : Int), e - left ≤ f * maxI →
      (batchIntervalAux maxI e f left).2 = true := by
  intro f
  induction f with
  | zero =>
    intro left h
    simp only [batchIntervalAux]
    have : ¬ left < e := by omega
    simp [this]
  | succ f ih =>
    intro left h
    simp only [batchIntervalAux]
    by_cases hc : left < e
    · simp only [hc, if_true]
      apply ih
      rcases le_or_lt (left + maxI) e with h1 | h1
      · have : min (left + maxI) e = left + maxI := min_eq_left h1
        rw [this]
        have : (↑(f + 1) : Int) * maxI = ↑f * maxI + maxI := by push_cast; ring
        omega
      · have : min (left + maxI) e = e := min_eq_right h1.le
        rw [this]
        have : 0 ≤ (↑f : Int) * maxI := by positivity
        omega
    · simp [hc]

theorem batch_interval_done (start e maxI : Int) (hm : 0 < maxI) :
    (batchIntervalAux maxI e (batchFuel start e maxI) start).2 = true := by
  apply batchIntervalAux_done maxI e hm
  unfold batchFuel
  rcases le_or_lt (e - start) 0 with h | h
  · have : 0 ≤ (↑((e - start).toNat / maxI.toNat + 1) : Int) * maxI := by positivity
    omega
  · have hd : ((e - start).toNat : Int) = e - start := Int.toNat_of_nonneg h.le
    have hmn : (maxI.toNat : Int) = maxI := Int.toNat_of_nonneg hm.le
    have hmn0 : 0 < maxI.toNat := by omega
    have hdiv := Nat.div_add_mod (e - start).toNat maxI.toNat
    have hmod := Nat.mod_lt (e - start).toNat hmn0
    set q := (e - start).toNat / maxI.toNat
    set r := (e - start).toNat % maxI.toNat
    have : ((q + 1 : Nat) : Int) * maxI = (q : Int) * maxI + maxI := by push_cast; ring
    rw [this]
    have h1 : (maxI.toNat : Int) * q + r = ((e - start).toNat : Int) := by
      exact_mod_cast congrArg (Nat.cast : Nat → Int) hdiv
    have h2 : (r : Int) < maxI := by omega
    nlinarith [h1, h2, hd, hmn]

/-- The structural properties of a completed run of the generator loop,
relative to the loop variable `left`. -/
theorem batchIntervalAux_spec (maxI e : Int) :
    ∀ (f : Nat) (left : Int), (batchIntervalAux maxI e f left).2 = true →
      ((batchIntervalAux maxI e f left).1 = [] ↔ ¬ left < e)
      ∧ (∀ p ∈ (batchIntervalAux maxI e f left).1,
          p.1 < e ∧ p.2 = min (p.1 + maxI) e)
      ∧ List.Chain' (fun p q => p.2 = q.1) (batchIntervalAux maxI e f left).1
      ∧ (left < e →
          ((batchIntervalAux maxI e f left).1.head?.map Prod.fst = some left
           ∧ (batchIntervalAux maxI e f left).1.getLast?.map Prod.snd = some e)) := by
  intro f
  induction f with
  | zero =>
    intro left hdone
    simp only [batchIntervalAux] at hdone ⊢
    by_cases hc : left < e
    · simp [hc] at hdone
    · simp [hc]
  | succ f ih =>
    intro left hdone
    simp only [batchIntervalAux] at hdone ⊢
    by_cases hc : left < e
    · simp only [hc, if_true] at hdone ⊢
      set right := min (left + maxI) e with hright
      obtain ⟨ihEmpty, ihMem, ihChain, ihEnds⟩ := ih right hdone
      have hre : right ≤ e := min_le_right _ _
      refine ⟨by simp [hc], ?_, ?_, ?_⟩
      · intro p hp
        rcases List.mem_cons.mp hp with h | h
        · subst h; exact ⟨hc, rfl⟩
        · exact ihMem p h
      · rcases List.eq_nil_or_concat ((batchIntervalAux maxI e f right).1) with hnil | _
        · rw [hnil]; simp
        · apply List.Chain'.cons'
          · exact ihChain
          · intro q hq
            by_cases hre' : right < e
            · have := (ihEnds hre').1
              rcases hh : (batchIntervalAux maxI e f right).1.head? with _ | q'
              · simp [hh] at hq
              · simp [hh] at hq this
                simpa [← hq] using this.symm
            · have : (batchIntervalAux maxI e f right).1 = [] := ihEmpty.mpr hre'
              simp [this] at hq
      · intro _
        constructor
        · simp
        · by_cases hre' : right < e
          · have hlast := (ihEnds hre').2
            rcases hl : (batchIntervalAux maxI e f right).1.getLast? with _ | q
            · simp [hl] at hlast
            · simp [hl] at hlast
              rcases List.getLast?_eq_some_iff.mp hl with ⟨ys, hys⟩
              rw [hys, ← List.cons_append, List.getLast?_concat]
              simp [hlast]
          · have hnil : (batchIntervalAux maxI e f right).1 = [] := ihEmpty.mpr hre'
            rw [hnil]
            have : right = e := by omega
            simp [this]
    · simp [hc]

/-- When `max_interval ≤ 0` and `left < end`, the loop never exits within any
fuel, and every yielded interval fails to advance (`right ≤ left`). -/
theorem batchIntervalAux_stuck (maxI e : Int) (hm : maxI ≤ 0) :
    ∀ (f : Nat) (left : Int), left < e →
      (batchIntervalAux maxI e f left).2 = false
      ∧ ∀ p ∈ (batchIntervalAux maxI e f left).1, p.2 ≤ p.1 := by
  intro f
  induction f with
  | zero =>
    intro left hc
    simp [batchIntervalAux, hc]
  | succ f ih =>
    intro left hc
    simp only [batchIntervalAux, hc, if_true]
    have hmin : min (left + maxI) e = left + maxI := min_eq_left (by omega)
    have hlt : left + maxI < e := by omega
    obtain ⟨ih1, ih2⟩ := ih (min (left + maxI) e) (by rw [hmin]; exact hlt)
    refine ⟨ih1, ?_⟩
    intro p hp
    rcases List.mem_cons.mp hp with h | h
    · subst h; simp [hmin]; omega
    · exact ih2 p h

/-- C1: for `start ≤ end` and `max_span > 0`, `batch_interval` tiles
`[start, end)` exactly: the first range starts at `start`, each span is at
most `max_span` and positive, consecutive ranges are contiguous, the last
range ends at `end`, the sequence is empty iff `start = end`; and on
start = 2021-06-01T00:00Z, end = 2021-06-03T00:00Z, max_span = 1 day
(epoch microseconds) it yields exactly the two day-long ranges. -/
theorem batch_interval_tiles (start e maxI : Int) (hm : 0 < maxI) (hse : start ≤ e) :
    (batch_interval start e maxI = [] ↔ start = e)
    ∧ (∀ p ∈ batch_interval start e maxI, p.2 - p.1 ≤ maxI ∧ p.1 < p.2)
    ∧ List.Chain' (fun p q => p.2 = q.1) (batch_interval start e maxI)
    ∧ (start < e →
        ((batch_interval start e maxI).head?.map Prod.fst = some start
         ∧ (batch_interval start e maxI).getLast?.map Prod.snd = some e))
    ∧ batch_interval 1622505600000000 1622678400000000 86400000000
        = [(1622505600000000, 1622592000000000), (1622592000000000, 1622678400000000)] := by
  have hdone := batch_interval_done start e maxI hm
  obtain ⟨hEmpty, hMem, hChain, hEnds⟩ :=
    batchIntervalAux_spec maxI e (batchFuel start e maxI) start hdone
  refine ⟨?_, ?_, hChain, hEnds, by decide⟩
  · unfold batch_interval
    rw [hEmpty]
    omega
  · intro p hp
    obtain ⟨hp1, hp2⟩ := hMem p hp
    have h1 : min (p.1 + maxI) e ≤ p.1 + maxI := min_le_left _ _
    have h2 : p.1 < min (p.1 + maxI) e := lt_min (by omega) hp1
    omega

/-- Witness for `batch_interval_tiles` at the concrete 2021-06-01 … 2021-06-03
scenario with a one-day maximum span. -/
theorem batch_interval_tiles_witness :
    (0 : Int) < 86400000000 ∧ (1622505600000000 : Int) ≤ 1622678400000000
    ∧ ((batch_interval 1622505600000000 1622678400000000 86400000000 = []
          ↔ (1622505600000000 : Int) = 1622678400000000)
       ∧ (∀ p ∈ batch_interval 1622505600000000 1622678400000000 86400000000,
            p.2 - p.1 ≤ 86400000000 ∧ p.1 < p.2)
       ∧ List.Chain' (fun p q => p.2 = q.1)
           (batch_interval 1622505600000000 1622678400000000 86400000000)
       ∧ ((1622505600000000 : Int) < 1622678400000000 →
           ((batch_interval 1622505600000000 1622678400000000 86400000000).head?.map Prod.fst
              = some 1622505600000000
            ∧ (batch_interval 1622505600000000 1622678400000000 86400000000).getLast?.map Prod.snd
              = some 1622678400000000))
       ∧ batch_interval 1622505600000000 1622678400000000 86400000000
           = [(1622505600000000, 1622592000000000), (1622592000000000, 1622678400000000)]) :=
  ⟨by norm_num, by norm_num,
   batch_interval_tiles 1622505600000000 1622678400000000 86400000000
     (by norm_num) (by norm_num)⟩

/-- C10: with `max_interval > 0` the generator is exhausted within the
canonical fuel (finitely many intervals for every input); with
`max_interval ≤ 0` and `start < end` it never finishes for any amount of
fuel, and every interval yielded so far is non-advancing (`end ≤ start`
within the pair). -/
theorem batch_interval_termination (start e maxI : Int) :
    (0 < maxI → (batchIntervalAux maxI e (batchFuel start e maxI) start).2 = true)
    ∧ (maxI ≤ 0 → start < e → ∀ f : Nat,
        (batchIntervalAux maxI e f start).2 = false
        ∧ ∀ p ∈ (batchIntervalAux maxI e f start).1, p.2 ≤ p.1) := by
  constructor
  · intro hm
    exact batch_interval_done start e maxI hm
  · intro hm hlt f
    exact batchIntervalAux_stuck maxI e hm f start hlt

/-- Witness for `batch_interval_termination`: termination at
`(0, 10, 3)`, non-termination at `(0, 10, 0)` with fuel 5. -/
theorem batch_interval_termination_witness :
    (batchIntervalAux 3 10 (batchFuel 0 10 3) 0).2 = true
    ∧ (batchIntervalAux 0 10 5 0).2 = false :=
  ⟨(batch_interval_termination 0 10 3).1 (by norm_num),
   ((batch_interval_termination 0 10 0).2 (le_refl 0) (by norm_num) 5).1⟩

/-- C4 counterexample: with `start = 1 > 0 = end` and `max_span = 5` the
generator completes normally (exhausted flag `true`) yielding no intervals;
no error of any kind is raised — there is no `InvalidRangeError` anywhere in
the code, refuting "fails with an InvalidRangeError, raised immediately". -/
theorem batch_interval_no_error_counterexample :
    batchIntervalAux 5 0 (batchFuel 1 0 5) 1 = ([], true)
    ∧ batch_interval 1 0 5 = [] := by
  constructor
  · decide
  · decide

/-- C4 amended: `batch_interval` performs no input validation and has no
error path: with `end ≤ start` it terminates immediately for any fuel and
yields nothing, and with `max_span ≤ 0` and `start < end` it never
terminates (instead of raising `InvalidRangeError`, which does not exist in
the code). -/
theorem batch_interval_no_validation (start e maxI : Int) :
    (e ≤ start → ∀ f : Nat, batchIntervalAux maxI e f start = ([], true))
    ∧ (maxI ≤ 0 → start < e → ∀ f : Nat,
        (batchIntervalAux maxI e f start).2 = false) := by
  constructor
  · intro h f
    have hc : ¬ start < e := by omega
    cases f with
    | zero => simp [batchIntervalAux, hc]
    | succ f => simp [batchIntervalAux, hc]
  · intro hm hlt f
    exact (batchIntervalAux_stuck maxI e hm f start hlt).1

/-- Witness for `batch_interval_no_validation` at `(1, 0, 5)` and `(0, 10, -2)`. -/
theorem batch_interval_no_validation_witness :
    batchIntervalAux 5 0 7 1 = ([], true)
    ∧ (batchIntervalAux (-2) 10 7 0).2 = false :=
  ⟨(batch_interval_no_validation 1 0 5).1 (by norm_num) 7,
   (batch_interval_no_validation 0 10 (-2)).2 (by norm_num) (by norm_num) 7⟩

/-! ## Single-batch response model and frame stitching
(`EurogardAPI.get_frame_from_names`, api.py:285-332)

A historical-data response is a list of per-signal results, each carrying
`dataDefinitionKeyItemName` and a list of `{timestamp, value}` samples.
A polars `DataFrame` is embedded as a column-name list plus rows of
`(timestamp, values)` with one optional value per column. The per-signal
frames are stitched with `join(on="timestamp", how="full", coalesce=True)`;
joins with duplicate timestamps inside one series (which polars would
fan out) are not modelled — every theorem below assumes per-series
timestamps are pairwise distinct, which also makes the keyed-lookup join
below coincide with the polars join. -/

structure SignalResult where
  name : String
  values : List (Int × Int)
deriving DecidableEq

/-- Polars `DataFrame` with a `timestamp` key column (`rows.map fst`) and
one value column per entry of `cols`. -/
structure Frame where
  cols : List String
  rows : List (Int × List (Option Int))
deriving DecidableEq

/-- `pl.DataFrame()`. -/
def emptyFrame : Frame := ⟨[], []⟩

/-- `DataFrame.is_empty()` (height = 0). -/
def Frame.isEmpty (f : Frame) : Bool := f.rows.isEmpty

/-- The one-signal frame `pl.DataFrame(res["values"])` with the value
column renamed to the signal name. -/
def singleFrame (r : SignalResult) : Frame :=
  ⟨[r.name], r.values.map (fun p => (p.1, [some p.2]))⟩

/-- Row lookup by timestamp key. -/
def lookupRow (rows : List (Int × List (Option Int))) (t : Int) :
    Option (List (Option Int)) :=
  (rows.find? (fun q => q.1 == t)).map Prod.snd

/-- `a.join(b, on="timestamp", how="full", coalesce=True)`: all of `a`'s
rows extended with `b`'s values (or nulls) at the same timestamp, then
`b`'s rows at timestamps absent from `a`, padded with nulls for `a`'s
columns. -/
def joinFrames (a b : Frame) : Frame :=
  ⟨a.cols ++ b.cols,
   a.rows.map (fun p =>
       (p.1, p.2 ++ (lookupRow b.rows p.1).getD (List.replicate b.cols.length none)))
   ++ (b.rows.filter (fun q => (lookupRow a.rows q.1).isNone)).map
       (fun q => (q.1, List.replicate a.cols.length none ++ q.2))⟩

def rowLE (p q : Int × List (Option Int)) : Bool := decide (p.1 ≤ q.1)

/-- `DataFrame.sort("timestamp")`. -/
def sortFrame (f : Frame) : Frame := ⟨f.cols, f.rows.mergeSort rowLE⟩

/-- The stitching loop shared by `get_frame_from_names` and the async
`fetch_batch` body: skip signals with empty `values`, build one frame per
remaining signal, fold a full outer join over them (no final sort — the
async `fetch_batch` returns this directly). -/
def stitchFrames (results : List SignalResult) : Frame :=
  match results.filter (fun r => !r.values.isEmpty) with
  | [] => emptyFrame
  | r :: rest => rest.foldl (fun acc s => joinFrames acc (singleFrame s)) (singleFrame r)

/-- `get_frame_from_names`: the stitching loop followed by
`.sort("timestamp")` (an empty result set short-circuits to
`pl.DataFrame()`). -/
def buildFrame (results : List SignalResult) : Frame :=
  match results.filter (fun r => !r.values.isEmpty) with
  | [] => emptyFrame
  | r :: rest =>
    sortFrame (rest.foldl (fun acc s => joinFrames acc (singleFrame s)) (singleFrame r))

/-- Cell access by timestamp and column name: `none` = no such row or
column, `some none` = null cell, `some (some v)` = value `v`. -/
def rowCell (cols : List String) (vals : List (Option Int)) (c : String) :
    Option (Option Int) :=
  ((cols.zip vals).find? (fun p => p.1 == c)).map Prod.snd

def cellAt (f : Frame) (t : Int) (c : String) : Option (Option Int) :=
  (f.rows.find? (fun p => p.1 == t)).bind (fun p => rowCell f.cols p.2 c)

/-! ### Keyed-lookup helper lemmas -/

theorem find?_key_of_mem_nodup {β : Type} {l : List (Int × β)} {p : Int × β}
    (h : (l.map Prod.fst).Nodup) (hp : p ∈ l) :
    l.find? (fun q => q.1 == p.1) = some p := by
  induction l with
  | nil => cases hp
  | cons a tl ih =>
    rcases List.mem_cons.mp hp with rfl | hmem
    · simp
    · have ha : a.1 ≠ p.1 := by
        intro hcontra
        have : p.1 ∈ tl.map Prod.fst := List.mem_map_of_mem Prod.fst hmem
        rw [List.map_cons, List.nodup_cons] at h
        exact h.1 (hcontra ▸ this)
      rw [List.find?_cons_of_neg _ (by simpa using ha)]
      exact ih (by rw [List.map_cons, List.nodup_cons] at h; exact h.2) hmem

theorem find?_key_eq_none_iff {β : Type} {l : List (Int × β)} {t : Int} :
    l.find? (fun q => q.1 == t) = none ↔ t ∉ l.map Prod.fst := by
  rw [List.find?_eq_none]
  constructor
  · intro h hmem
    obtain ⟨p, hp, hpt⟩ := List.mem_map.mp hmem
    exact h p hp (by simpa using hpt)
  · intro h p hp hpt
    exact h (List.mem_map.mpr ⟨p, hp, by simpa using hpt⟩)

theorem lookupRow_eq_none_iff {rows : List (Int × List (Option Int))} {t : Int} :
    lookupRow rows t = none ↔ t ∉ rows.map Prod.fst := by
  unfold lookupRow
  rw [Option.map_eq_none']
  exact find?_key_eq_none_iff

theorem lookupRow_of_mem_nodup {rows : List (Int × List (Option Int))}
    {t : Int} {vs : List (Option Int)}
    (h : (rows.map Prod.fst).Nodup) (hmem : (t, vs) ∈ rows) :
    lookupRow rows t = some vs := by
  unfold lookupRow
  rw [find?_key_of_mem_nodup h hmem]
  rfl

theorem lookupRow_mem {rows : List (Int × List (Option Int))} {t : Int}
    {vs : List (Option Int)} (h : lookupRow rows t = some vs) :
    (t, vs) ∈ rows := by
  unfold lookupRow at h
  rcases hf : rows.find? (fun q => q.1 == t) with _ | q
  · rw [hf] at h; cases h
  · rw [hf] at h
    have hq := List.mem_of_find?_eq_some hf
    have hqt : q.1 = t := by simpa using List.find?_some hf
    have hvs : q.2 = vs := by simpa using h
    have : q = (t, vs) := by
      cases q; simp_all
    rwa [this] at hq

/-- `find?` by key is invariant under permutation when keys are nodup. -/
theorem find?_key_perm {β : Type} {l l' : List (Int × β)} (hperm : l.Perm l')
    (h : (l.map Prod.fst).Nodup) (t : Int) :
    l.find? (fun q => q.1 == t) = l'.find? (fun q => q.1 == t) := by
  have h' : (l'.map Prod.fst).Nodup := ((hperm.map Prod.fst).nodup_iff).mp h
  by_cases hmem : t ∈ l.map Prod.fst
  · obtain ⟨p, hp, hpt⟩ := List.mem_map.mp hmem
    subst hpt
    rw [find?_key_of_mem_nodup h hp, find?_key_of_mem_nodup h' (hperm.mem_iff.mp hp)]
  · rw [find?_key_eq_none_iff.mpr hmem,
      find?_key_eq_none_iff.mpr (fun hc => hmem (((hperm.map Prod.fst).mem_iff).mpr hc))]

/-! ### `rowCell` helper lemmas -/

theorem rowCell_append_left {cols₁ cols₂ : List String}
    {vals₁ vals₂ : List (Option Int)} {c : String}
    (hlen : cols₁.length = vals₁.length) (hsome : (rowCell cols₁ vals₁ c).isSome) :
    rowCell (cols₁ ++ cols₂) (vals₁ ++ vals₂) c = rowCell cols₁ vals₁ c := by
  unfold rowCell at *
  rw [List.zip_append hlen, List.find?_append]
  rcases hf : (cols₁.zip vals₁).find? (fun p => p.1 == c) with _ | q
  · rw [hf] at hsome; simp at hsome
  · rw [hf]; rfl

theorem rowCell_append_right {cols₁ cols₂ : List String}
    {vals₁ vals₂ : List (Option Int)} {c : String}
    (hlen : cols₁.length = vals₁.length) (hc : c ∉ cols₁) :
    rowCell (cols₁ ++ cols₂) (vals₁ ++ vals₂) c = rowCell cols₂ vals₂ c := by
  unfold rowCell
  rw [List.zip_append hlen, List.find?_append]
  have : (cols₁.zip vals₁).find? (fun p => p.1 == c) = none := by
    rw [List.find?_eq_none]
    intro x hx
    have := List.of_mem_zip hx
    simp only [beq_iff_eq]
    intro hcontra
    exact hc (hcontra ▸ this.1)
  rw [this]
  rfl

theorem rowCell_replicate_none {cols : List String} {c : String} (hc : c ∈ cols) :
    rowCell cols (List.replicate cols.length none) c = some none := by
  induction cols with
  | nil => cases hc
  | cons a tl ih =>
    by_cases hac : a = c
    · subst hac
      simp [rowCell, List.replicate]
    · rcases List.mem_cons.mp hc with h | h
      · exact absurd h.symm hac
      · have := ih h
        unfold rowCell at this ⊢
        simpa [List.replicate, List.zip_cons_cons, hac] using this

theorem rowCell_single {n : String} {x : Option Int} :
    rowCell [n] [x] n = some x := by
  simp [rowCell]

/-! ### The stitching invariant

`StitchInv ss g` says the frame `g` is a correct time-aligned table for the
per-signal results `ss`: one column per signal, rows with one entry per
column, pairwise-distinct timestamps, a row for a timestamp iff some signal
has a sample there, and every cell holding exactly the signal's own sample
at that timestamp (null when absent). -/

structure StitchInv (ss : List SignalResult) (g : Frame) : Prop where
  cols_eq : g.cols = ss.map SignalResult.name
  len_eq : ∀ p ∈ g.rows, p.2.length = g.cols.length
  ts_nodup : (g.rows.map Prod.fst).Nodup
  ts_mem : ∀ t : Int, t ∈ g.rows.map Prod.fst ↔ ∃ s ∈ ss, t ∈ s.values.map Prod.fst
  cells : ∀ s ∈ ss, ∀ p ∈ g.rows,
    rowCell g.cols p.2 s.name
      = some ((s.values.find? (fun q => q.1 == p.1)).map Prod.snd)

theorem singleFrame_keys (r : SignalResult) :
    (singleFrame r).rows.map Prod.fst = r.values.map Prod.fst := by
  simp [singleFrame, List.map_map]

theorem singleFrame_row_mem {r : SignalResult} {t : Int} {vs : List (Option Int)}
    (hq : (t, vs) ∈ (singleFrame r).rows) :
    ∃ v : Int, vs = [some v] ∧ (t, v) ∈ r.values := by
  obtain ⟨p, hp, heq⟩ := List.mem_map.mp hq
  injection heq with h1 h2
  subst h1
  subst h2
  exact ⟨p.2, rfl, hp⟩

theorem stitchInv_single (r : SignalResult) (hts : (r.values.map Prod.fst).Nodup) :
    StitchInv [r] (singleFrame r) := by
  refine ⟨rfl, ?_, ?_, ?_, ?_⟩
  · intro p hp
    obtain ⟨v, hv, _⟩ := singleFrame_row_mem (show (p.1, p.2) ∈ (singleFrame r).rows from hp)
    simp [singleFrame, hv]
  · rw [singleFrame_keys]; exact hts
  · intro t
    rw [singleFrame_keys]
    simp
  · intro s hs p hp
    rcases List.mem_cons.mp hs with rfl | h
    · obtain ⟨v, hv, hmem⟩ :=
        singleFrame_row_mem (show (p.1, p.2) ∈ (singleFrame s).rows from hp)
      rw [show (singleFrame s).cols = [s.name] from rfl, hv, rowCell_single]
      rw [find?_key_of_mem_nodup hts hmem]
      rfl
    · cases h

theorem stitchInv_join {ss : List SignalResult} {g : Frame} {s : SignalResult}
    (hinv : StitchInv ss g)
    (hfresh : s.name ∉ ss.map SignalResult.name)
    (hts : (s.values.map Prod.fst).Nodup) :
    StitchInv (ss ++ [s]) (joinFrames g (singleFrame s)) := by
  set b := singleFrame s with hb
  have hbcols : b.cols = [s.name] := rfl
  have hbkeys : b.rows.map Prod.fst = s.values.map Prod.fst := singleFrame_keys s
  have hsfresh : s.name ∉ g.cols := by rw [hinv.cols_eq]; exact hfresh
  have hk1 : (g.rows.map (fun p =>
      (p.1, p.2 ++ (lookupRow b.rows p.1).getD (List.replicate b.cols.length none)))).map
      Prod.fst = g.rows.map Prod.fst := by
    rw [List.map_map]; rfl
  have hk2 : ((b.rows.filter (fun q => (lookupRow g.rows q.1).isNone)).map
      (fun q => (q.1, List.replicate g.cols.length none ++ q.2))).map Prod.fst
      = (b.rows.filter (fun q => (lookupRow g.rows q.1).isNone)).map Prod.fst := by
    rw [List.map_map]; rfl
  have hrows : (joinFrames g b).rows
      = g.rows.map (fun p =>
          (p.1, p.2 ++ (lookupRow b.rows p.1).getD (List.replicate b.cols.length none)))
        ++ (b.rows.filter (fun q => (lookupRow g.rows q.1).isNone)).map
            (fun q => (q.1, List.replicate g.cols.length none ++ q.2)) := rfl
  have hfilterKey : ∀ t : Int,
      t ∈ (b.rows.filter (fun q => (lookupRow g.rows q.1).isNone)).map Prod.fst →
      t ∉ g.rows.map Prod.fst ∧ t ∈ b.rows.map Prod.fst := by
    intro t ht
    obtain ⟨q, hq, rfl⟩ := List.mem_map.mp ht
    have hqf := List.mem_filter.mp hq
    constructor
    · rw [← lookupRow_eq_none_iff]
      exact Option.isNone_iff_eq_none.mp (by simpa using hqf.2)
    · exact List.mem_map_of_mem Prod.fst hqf.1
  constructor
  · show g.cols ++ b.cols = (ss ++ [s]).map SignalResult.name
    rw [hinv.cols_eq, hbcols, List.map_append]
    rfl
  · -- row lengths
    intro p hp
    rcases List.mem_append.mp hp with h | h
    · obtain ⟨q, hq, rfl⟩ := List.mem_map.mp h
      have hlen := hinv.len_eq q hq
      show (q.2 ++ _).length = (g.cols ++ b.cols).length
      rw [List.length_append, List.length_append, hlen]
      congr 1
      rcases hl : lookupRow b.rows q.1 with _ | ws
      · simp
      · obtain ⟨v, hv, _⟩ := singleFrame_row_mem (lookupRow_mem hl)
        simp [hv, hbcols]
    · obtain ⟨q, hq, rfl⟩ := List.mem_map.mp h
      have hqf := List.mem_filter.mp hq
      obtain ⟨v, hv, _⟩ := singleFrame_row_mem (show (q.1, q.2) ∈ b.rows from hqf.1)
      show (List.replicate g.cols.length (none : Option Int) ++ q.2).length
          = (g.cols ++ b.cols).length
      rw [List.length_append, List.length_append, hv, hbcols]
      simp
  · -- nodup keys
    show ((joinFrames g b).rows.map Prod.fst).Nodup
    rw [hrows, List.map_append, hk1, hk2]
    refine List.Nodup.append hinv.ts_nodup ?_ ?_
    · have hsub : (b.rows.filter (fun q => (lookupRow g.rows q.1).isNone)).Sublist b.rows :=
        List.filter_sublist _
      have : ((b.rows.filter (fun q => (lookupRow g.rows q.1).isNone)).map Prod.fst).Sublist
          (b.rows.map Prod.fst) := hsub.map Prod.fst
      exact (hbkeys ▸ hts).sublist this
    · intro t ht1 ht2
      exact (hfilterKey t ht2).1 ht1
  · -- key membership
    intro t
    rw [show (joinFrames g b).rows.map Prod.fst
        = g.rows.map Prod.fst
          ++ (b.rows.filter (fun q => (lookupRow g.rows q.1).isNone)).map Prod.fst by
      rw [hrows, List.map_append, hk1, hk2]]
    rw [List.mem_append]
    constructor
    · rintro (h | h)
      · obtain ⟨s', hs', hts'⟩ := (hinv.ts_mem t).mp h
        exact ⟨s', List.mem_append_left _ hs', hts'⟩
      · refine ⟨s, List.mem_append_right _ (List.mem_singleton_self s), ?_⟩
        rw [← hbkeys]
        exact (hfilterKey t h).2
    · rintro ⟨s', hs', hts'⟩
      rcases List.mem_append.mp hs' with h | h
      · exact Or.inl ((hinv.ts_mem t).mpr ⟨s', h, hts'⟩)
      · rw [List.mem_singleton] at h
        subst h
        by_cases hg : t ∈ g.rows.map Prod.fst
        · exact Or.inl hg
        · right
          rw [← hbkeys] at hts'
          obtain ⟨q, hq, rfl⟩ := List.mem_map.mp hts'
          refine List.mem_map_of_mem Prod.fst (List.mem_filter.mpr ⟨hq, ?_⟩)
          simp only [Option.isNone_iff_eq_none]
          simpa using lookupRow_eq_none_iff.mpr hg
  · -- cells
    intro sig hsig p' hp'
    have hcolslen : ∀ q ∈ g.rows, g.cols.length = q.2.length :=
      fun q hq => (hinv.len_eq q hq).symm
    rcases List.mem_append.mp hp' with hpart | hpart
    · -- row extended from a row of `g`
      obtain ⟨p, hp, rfl⟩ := List.mem_map.mp hpart
      rcases List.mem_append.mp hsig with hold | hnew
      · -- old signal, row of `g`: left part of the row decides the cell
        have hsome : (rowCell g.cols p.2 sig.name).isSome := by
          rw [hinv.cells sig hold p hp]; rfl
        show rowCell (g.cols ++ b.cols) (p.2 ++ _) sig.name = _
        rw [rowCell_append_left (hcolslen p hp) hsome, hinv.cells sig hold p hp]
      · -- the new signal on an old row: value comes from the lookup
        rw [List.mem_singleton] at hnew
        subst hnew
        show rowCell (g.cols ++ b.cols) (p.2 ++ _) sig.name = _
        rw [rowCell_append_right (hcolslen p hp) hsfresh]
        rcases hl : lookupRow b.rows p.1 with _ | ws
        · have : p.1 ∉ sig.values.map Prod.fst := by
            rw [← hbkeys]; exact lookupRow_eq_none_iff.mp hl
          rw [find?_key_eq_none_iff.mpr this]
          show rowCell [sig.name] (List.replicate 1 none) sig.name = some none
          exact rowCell_single
        · obtain ⟨v, hv, hmem⟩ := singleFrame_row_mem (lookupRow_mem hl)
          rw [find?_key_of_mem_nodup hts hmem]
          show rowCell [sig.name] ws sig.name = some (some v)
          rw [hv]
          exact rowCell_single
    · -- row contributed only by the new signal: old columns are null
      obtain ⟨q, hq, rfl⟩ := List.mem_map.mp hpart
      have hqf := List.mem_filter.mp hq
      obtain ⟨v, hv, hmem⟩ := singleFrame_row_mem (show (q.1, q.2) ∈ b.rows from hqf.1)
      have hqnotg : q.1 ∉ g.rows.map Prod.fst := by
        rw [← lookupRow_eq_none_iff]
        exact Option.isNone_iff_eq_none.mp (by simpa using hqf.2)
      rcases List.mem_append.mp hsig with hold | hnew
      · have hc : sig.name ∈ g.cols := by
          rw [hinv.cols_eq]
          exact List.mem_map_of_mem SignalResult.name hold
        have hsome : (rowCell g.cols (List.replicate g.cols.length none) sig.name).isSome := by
          rw [rowCell_replicate_none hc]; rfl
        show rowCell (g.cols ++ b.cols) (_ ++ q.2) sig.name = _
        rw [rowCell_append_left (by simp) hsome, rowCell_replicate_none hc]
        have : q.1 ∉ sig.values.map Prod.fst := by
          intro hcontra
          exact hqnotg ((hinv.ts_mem q.1).mpr ⟨sig, hold, hcontra⟩)
        rw [find?_key_eq_none_iff.mpr this]
        rfl
      · rw [List.mem_singleton] at hnew
        subst hnew
        show rowCell (g.cols ++ b.cols) (_ ++ q.2) sig.name = _
        rw [rowCell_append_right (by simp) hsfresh, find?_key_of_mem_nodup hts hmem, hv]
        exact rowCell_single

theorem stitchInv_foldl :
    ∀ (rest ss : List SignalResult) (g : Frame),
      StitchInv ss g →
      ((ss ++ rest).map SignalResult.name).Nodup →
      (∀ s ∈ rest, (s.values.map Prod.fst).Nodup) →
      StitchInv (ss ++ rest)
        (rest.foldl (fun acc s => joinFrames acc (singleFrame s)) g) := by
  intro rest
  induction rest with
  | nil =>
    intro ss g hinv _ _
    simpa using hinv
  | cons s rest ih =>
    intro ss g hinv hnames hts
    have hnames' : (ss.map SignalResult.name ++ (s :: rest).map SignalResult.name).Nodup := by
      rw [← List.map_append]; exact hnames
    have hfresh : s.name ∉ ss.map SignalResult.name := by
      intro hc
      exact (List.nodup_append.mp hnames').2.2 hc (by simp)
    have hinv' := stitchInv_join hinv hfresh (hts s (by simp))
    have hres := ih (ss ++ [s])
      (joinFrames g (singleFrame s)) hinv'
      (by simpa using hnames)
      (fun x hx => hts x (List.mem_cons_of_mem _ hx))
    simpa using hres

theorem stitchFrames_inv (results : List SignalResult)
    (hnames : (results.map SignalResult.name).Nodup)
    (hts : ∀ r ∈ results, (r.values.map Prod.fst).Nodup) :
    StitchInv (results.filter (fun r => !r.values.isEmpty)) (stitchFrames results) := by
  have hsub : (results.filter (fun r => !r.values.isEmpty)).Sublist results :=
    List.filter_sublist _
  have hnames' : ((results.filter (fun r => !r.values.isEmpty)).map
      SignalResult.name).Nodup :=
    hnames.sublist (hsub.map SignalResult.name)
  have hts' : ∀ r ∈ results.filter (fun r => !r.values.isEmpty),
      (r.values.map Prod.fst).Nodup :=
    fun r hr => hts r (hsub.mem hr)
  unfold stitchFrames
  rcases hfil : results.filter (fun r => !r.values.isEmpty) with _ | ⟨r, rest⟩
  · simp only [hfil]
    refine ⟨rfl, ?_, List.nodup_nil, ?_, ?_⟩
    · intro p hp
      cases hp
    · intro t
      simp [emptyFrame]
    · intro s hs
      cases hs
  · simp only [hfil]
    rw [hfil] at hnames' hts'
    have hbase := stitchInv_single r (hts' r (by simp))
    have := stitchInv_foldl rest [r] (singleFrame r) hbase
      (by simpa using hnames')
      (fun x hx => hts' x (List.mem_cons_of_mem _ hx))
    simpa using this

/-! ### Sorting a frame -/

theorem rowLE_trans : ∀ a b c : Int × List (Option Int),
    rowLE a b → rowLE b c → rowLE a c := by
  intro a b c hab hbc
  simp only [rowLE, decide_eq_true_eq] at *
  omega

theorem rowLE_total : ∀ a b : Int × List (Option Int), rowLE a b || rowLE b a := by
  intro a b
  simp only [rowLE, Bool.or_eq_true, decide_eq_true_eq]
  omega

theorem sortFrame_rows_perm (f : Frame) : (sortFrame f).rows.Perm f.rows :=
  List.mergeSort_perm f.rows rowLE

theorem sortFrame_sorted (f : Frame) :
    List.Pairwise (fun p q : Int × List (Option Int) => p.1 ≤ q.1)
      (sortFrame f).rows := by
  have h := List.sorted_mergeSort rowLE_trans rowLE_total f.rows
  exact h.imp (fun hab => by simpa [rowLE] using hab)

theorem cellAt_sortFrame (f : Frame) (hnodup : (f.rows.map Prod.fst).Nodup)
    (t : Int) (c : String) :
    cellAt (sortFrame f) t c = cellAt f t c := by
  unfold cellAt
  have hperm := sortFrame_rows_perm f
  have hnodup' : ((sortFrame f).rows.map Prod.fst).Nodup :=
    ((hperm.map Prod.fst).nodup_iff).mpr hnodup
  rw [find?_key_perm hperm hnodup' t]
  rfl

theorem buildFrame_eq (results : List SignalResult) :
    buildFrame results = sortFrame (stitchFrames results) := by
  unfold buildFrame stitchFrames
  rcases hfil : results.filter (fun r => !r.values.isEmpty) with _ | ⟨r, rest⟩
  · simp only [hfil]
    show emptyFrame = ⟨[], List.mergeSort [] rowLE⟩
    rw [List.mergeSort_nil]
    rfl
  · simp only [hfil]

theorem stitchFrames_cellAt (results : List SignalResult)
    (hnames : (results.map SignalResult.name).Nodup)
    (hts : ∀ r ∈ results, (r.values.map Prod.fst).Nodup)
    {r : SignalResult} (hr : r ∈ results) (hne : r.values ≠ [])
    {t : Int} (htk : t ∈ (stitchFrames results).rows.map Prod.fst) :
    cellAt (stitchFrames results) t r.name
      = some ((r.values.find? (fun q => q.1 == t)).map Prod.snd) := by
  have hinv := stitchFrames_inv results hnames hts
  have hrfil : r ∈ results.filter (fun s => !s.values.isEmpty) :=
    List.mem_filter.mpr ⟨hr, by simpa [List.isEmpty_iff] using hne⟩
  obtain ⟨p, hp, hpt⟩ := List.mem_map.mp htk
  subst hpt
  unfold cellAt
  rw [find?_key_of_mem_nodup hinv.ts_nodup hp]
  show rowCell (stitchFrames results).cols p.2 r.name = _
  exact hinv.cells r hrfil p hp

/-- C6: for any single-batch response whose per-signal series have
pairwise-distinct timestamps (and distinct signal names),
`get_frame_from_names` builds a table with exactly one row per distinct
timestamp across all series, rows ascending by timestamp, each signal's
value in its own column at its own timestamps and null elsewhere; in
particular the response with signal "A" at t = 0 and t = 60 s and signal
"B" only at t = 0 yields 2 rows with the t = 60 s row null for "B". -/
theorem get_frame_from_names_aligned (results : List SignalResult)
    (hnames : (results.map SignalResult.name).Nodup)
    (hts : ∀ r ∈ results, (r.values.map Prod.fst).Nodup) :
    ((buildFrame results).rows.map Prod.fst).Nodup
    ∧ List.Pairwise (fun a b : Int => a ≤ b) ((buildFrame results).rows.map Prod.fst)
    ∧ (∀ t : Int, t ∈ (buildFrame results).rows.map Prod.fst
        ↔ ∃ r ∈ results, t ∈ r.values.map Prod.fst)
    ∧ (∀ r ∈ results, ∀ t v : Int, (t, v) ∈ r.values →
        cellAt (buildFrame results) t r.name = some (some v))
    ∧ (∀ r ∈ results, r.values ≠ [] →
        ∀ t : Int, t ∈ (buildFrame results).rows.map Prod.fst →
          t ∉ r.values.map Prod.fst →
          cellAt (buildFrame results) t r.name = some none)
    ∧ buildFrame [⟨"A", [(0, 10), (60000, 20)]⟩, ⟨"B", [(0, 30)]⟩]
        = ⟨["A", "B"], [(0, [some 10, some 30]), (60000, [some 20, none])]⟩ := by
  have hinv := stitchFrames_inv results hnames hts
  have heq := buildFrame_eq results
  have hperm : (buildFrame results).rows.Perm (stitchFrames results).rows := by
    rw [heq]; exact sortFrame_rows_perm _
  have hkeysperm := hperm.map Prod.fst
  have hnodup : ((buildFrame results).rows.map Prod.fst).Nodup :=
    hkeysperm.nodup_iff.mpr hinv.ts_nodup
  have hmemkeys : ∀ t : Int, t ∈ (buildFrame results).rows.map Prod.fst
      ↔ t ∈ (stitchFrames results).rows.map Prod.fst :=
    fun _ => hkeysperm.mem_iff
  have hcell : ∀ (t : Int) (c : String),
      cellAt (buildFrame results) t c = cellAt (stitchFrames results) t c := by
    intro t c
    rw [heq]
    exact cellAt_sortFrame _ hinv.ts_nodup t c
  have hmemresults : ∀ t : Int, t ∈ (stitchFrames results).rows.map Prod.fst
      ↔ ∃ r ∈ results, t ∈ r.values.map Prod.fst := by
    intro t
    rw [hinv.ts_mem t]
    constructor
    · rintro ⟨s, hs, hts'⟩
      exact ⟨s, (List.filter_sublist _).mem hs, hts'⟩
    · rintro ⟨r, hr, htr⟩
      obtain ⟨p, hp, _⟩ := List.mem_map.mp htr
      refine ⟨r, List.mem_filter.mpr ⟨hr, ?_⟩, htr⟩
      simpa [List.isEmpty_iff] using List.ne_nil_of_mem hp
  refine ⟨hnodup, ?_, ?_, ?_, ?_, ?_⟩
  · rw [heq]
    exact (List.pairwise_map).mpr (sortFrame_sorted _)
  · intro t
    rw [hmemkeys t]
    exact hmemresults t
  · intro r hr t v hmem
    have hne : r.values ≠ [] := List.ne_nil_of_mem hmem
    have htk : t ∈ (stitchFrames results).rows.map Prod.fst :=
      (hmemresults t).mpr ⟨r, hr, List.mem_map_of_mem Prod.fst hmem⟩
    rw [hcell t r.name, stitchFrames_cellAt results hnames hts hr hne htk]
    rw [show (r.values.find? (fun q => q.1 == t)) = some (t, v) from
      find?_key_of_mem_nodup (hts r hr) hmem]
    rfl
  · intro r hr hne t htk htnot
    have htk' : t ∈ (stitchFrames results).rows.map Prod.fst := (hmemkeys t).mp htk
    rw [hcell t r.name, stitchFrames_cellAt results hnames hts hr hne htk']
    rw [find?_key_eq_none_iff.mpr htnot]
    rfl
  · rw [buildFrame_eq]
    have h1 : stitchFrames [⟨"A", [(0, 10), (60000, 20)]⟩, ⟨"B", [(0, 30)]⟩]
        = ⟨["A", "B"], [(0, [some 10, some 30]), (60000, [some 20, none])]⟩ := by
      decide
    rw [h1]
    unfold sortFrame
    rw [List.mergeSort_of_sorted
      (by decide :
        List.Pairwise (fun a b => rowLE a b = true)
          [((0 : Int), [some (10 : Int), some 30]), (60000, [some 20, none])])]

/-- Witness for `get_frame_from_names_aligned` at the "A"/"B" scenario. -/
theorem get_frame_from_names_aligned_witness :
    cellAt (buildFrame [⟨"A", [(0, 10), (60000, 20)]⟩, ⟨"B", [(0, 30)]⟩]) 60000 "B"
      = some none
    ∧ ((buildFrame [⟨"A", [(0, 10), (60000, 20)]⟩, ⟨"B", [(0, 30)]⟩]).rows.map
        Prod.fst).Nodup := by
  have h := get_frame_from_names_aligned
    [⟨"A", [(0, 10), (60000, 20)]⟩, ⟨"B", [(0, 30)]⟩]
    (by decide) (by decide)
  refine ⟨?_, h.1⟩
  exact h.2.2.2.2.1 ⟨"B", [(0, 30)]⟩ (by decide) (by decide) 60000
    (by rw [h.2.2.2.2.2]; decide) (by decide)

/-! ## Multi-batch orchestrators
(`get_long_frame_from_names`, api.py:334-379 and `aget_frame_from_names`,
api.py:381-455)

Both orchestrators split `[start, end)` with `batch_interval`, fetch one
response per sub-range (the backend is a function from the sub-range to its
response — the same function for both, modelling "same backend response for
each sub-range request"), drop empty per-batch frames, and finish with
`pl.concat(...).sort("timestamp")`. The sequential path builds each batch
frame with `get_frame_from_names` (which sorts each batch); the async
`fetch_batch` builds the identical join but returns it unsorted. -/

/-- `pl.concat` (default "vertical" strategy): fails unless every frame has
the head frame's schema, otherwise stacks all rows in order. -/
def concatFrames : List Frame → Except String Frame
  | [] => .error "empty concat"
  | f :: fs =>
    if fs.all (fun g => g.cols == f.cols) then
      .ok ⟨f.cols, f.rows ++ (fs.map Frame.rows).flatten⟩
    else .error "schema mismatch"

/-- `EurogardAPI.get_long_frame_from_names` (sequential orchestrator). -/
def get_long_frame_from_names (backend : Int → Int → List SignalResult)
    (start e maxI : Int) : Except String Frame :=
  let batches := batch_interval start e maxI
  let dataframes := (batches.map (fun p => buildFrame (backend p.1 p.2))).filter
      (fun f => !f.isEmpty)
  if dataframes.isEmpty then .ok emptyFrame
  else (concatFrames dataframes).map sortFrame

/-- `EurogardAPI.aget_frame_from_names` (concurrent orchestrator):
`asyncio.gather` returns per-batch results in dispatch order, so the list
of per-batch frames is the same as the sequential one except that
`fetch_batch` does not sort each batch frame. -/
def aget_frame_from_names (backend : Int → Int → List SignalResult)
    (start e maxI : Int) : Except String Frame :=
  let batches := batch_interval start e maxI
  let dataframes := (batches.map (fun p => stitchFrames (backend p.1 p.2))).filter
      (fun f => !f.isEmpty)
  if dataframes.isEmpty then .ok emptyFrame
  else (concatFrames dataframes).map sortFrame

theorem sortFrame_cols (f : Frame) : (sortFrame f).cols = f.cols := rfl

theorem sortFrame_isEmpty (f : Frame) : (sortFrame f).isEmpty = f.isEmpty := by
  show (f.rows.mergeSort rowLE).isEmpty = f.rows.isEmpty
  rw [Bool.eq_iff_iff, List.isEmpty_iff, List.isEmpty_iff]
  constructor
  · intro h
    have hperm := List.mergeSort_perm f.rows rowLE
    rw [h] at hperm
    exact hperm.nil_eq.symm
  · intro h
    rw [h]
    exact List.mergeSort_nil

theorem concatFrames_ok_rows {fs : List Frame} {c : Frame}
    (h : concatFrames fs = .ok c) :
    c.rows = (fs.map Frame.rows).flatten ∧ ∀ g ∈ fs, g.cols = c.cols := by
  match fs with
  | [] => cases h
  | f :: fs =>
    have h' : (if (fs.all fun g => g.cols == f.cols) = true then
        Except.ok (⟨f.cols, f.rows ++ (fs.map Frame.rows).flatten⟩ : Frame)
      else Except.error "schema mismatch") = Except.ok c := h
    by_cases hall : (fs.all fun g => g.cols == f.cols) = true
    · rw [if_pos hall] at h'
      injection h' with h'
      subst h'
      refine ⟨rfl, ?_⟩
      intro g hg
      rcases List.mem_cons.mp hg with rfl | hg
      · rfl
      · exact beq_iff_eq.mp (List.all_eq_true.mp hall g hg)
    · rw [if_neg hall] at h'
      cases h'

theorem concatFrames_error_of_mismatch {fs : List Frame} {f1 f2 : Frame}
    (h1 : f1 ∈ fs) (h2 : f2 ∈ fs) (hne : f1.cols ≠ f2.cols) :
    ∃ msg, concatFrames fs = .error msg := by
  match fs with
  | [] => cases h1
  | f :: fs =>
    by_cases hall : (fs.all fun g => g.cols == f.cols) = true
    · exfalso
      have hcols : ∀ g ∈ f :: fs, g.cols = f.cols := by
        intro g hg
        rcases List.mem_cons.mp hg with rfl | hg
        · rfl
        · exact beq_iff_eq.mp (List.all_eq_true.mp hall g hg)
      exact hne ((hcols f1 h1).trans (hcols f2 h2).symm)
    · refine ⟨"schema mismatch", ?_⟩
      show (if (fs.all fun g => g.cols == f.cols) = true then
          Except.ok (⟨f.cols, f.rows ++ (fs.map Frame.rows).flatten⟩ : Frame)
        else Except.error "schema mismatch") = Except.error "schema mismatch"
      rw [if_neg hall]

theorem sum_rows_filter (fs : List Frame) :
    ((fs.filter (fun f => !f.isEmpty)).map (fun f => f.rows.length)).sum
      = (fs.map (fun f => f.rows.length)).sum := by
  induction fs with
  | nil => rfl
  | cons f fs ih =>
    by_cases h : f.isEmpty
    · have hzero : f.rows.length = 0 := by
        have : f.rows = [] := List.isEmpty_iff.mp h
        rw [this]; rfl
      rw [List.filter_cons, if_neg (by simp [h]), List.map_cons, List.sum_cons, hzero, ih]
      simp
    · rw [List.filter_cons, if_pos (by simp [h]), List.map_cons, List.sum_cons,
        List.map_cons, List.sum_cons, ih]

/-- The common `pl.concat(dataframes).sort("timestamp")` tail of both
orchestrators: on success, row count is the total over the frames and the
result is ascending in timestamp. -/
theorem concatSort_spec (dfs : List Frame) (f : Frame)
    (h : (if dfs.isEmpty then Except.ok emptyFrame
          else (concatFrames dfs).map sortFrame) = .ok f) :
    f.rows.length = (dfs.map (fun g => g.rows.length)).sum
    ∧ List.Pairwise (fun a b : Int => a ≤ b) (f.rows.map Prod.fst) := by
  by_cases hemp : dfs.isEmpty
  · rw [if_pos hemp] at h
    injection h with h
    subst h
    have : dfs = [] := List.isEmpty_iff.mp hemp
    subst this
    exact ⟨rfl, List.Pairwise.nil⟩
  · rw [if_neg hemp] at h
    rcases hc : concatFrames dfs with msg | c
    · rw [hc] at h; cases h
    · rw [hc] at h
      injection h with h
      subst h
      obtain ⟨hrows, _⟩ := concatFrames_ok_rows hc
      constructor
      · show (c.rows.mergeSort rowLE).length = _
        rw [List.length_mergeSort, hrows, List.length_flatten, List.map_map]
        rfl
      · exact (List.pairwise_map).mpr (sortFrame_sorted c)

/-- C7: for every multi-batch fetch that succeeds (sequential or
concurrent), the final row count equals the sum of the per-batch row
counts, and the final rows are globally ascending by timestamp. -/
theorem orchestrators_concat_invariant (backend : Int → Int → List SignalResult)
    (start e maxI : Int) :
    (∀ f : Frame, get_long_frame_from_names backend start e maxI = .ok f →
      f.rows.length = ((batch_interval start e maxI).map
          (fun p => (buildFrame (backend p.1 p.2)).rows.length)).sum
      ∧ List.Pairwise (fun a b : Int => a ≤ b) (f.rows.map Prod.fst))
    ∧ (∀ f : Frame, aget_frame_from_names backend start e maxI = .ok f →
      f.rows.length = ((batch_interval start e maxI).map
          (fun p => (stitchFrames (backend p.1 p.2)).rows.length)).sum
      ∧ List.Pairwise (fun a b : Int => a ≤ b) (f.rows.map Prod.fst)) := by
  constructor
  · intro f h
    obtain ⟨hlen, hsort⟩ := concatSort_spec _ f h
    refine ⟨?_, hsort⟩
    rw [hlen, sum_rows_filter, List.map_map]
    rfl
  · intro f h
    obtain ⟨hlen, hsort⟩ := concatSort_spec _ f h
    refine ⟨?_, hsort⟩
    rw [hlen, sum_rows_filter, List.map_map]
    rfl

/-- Witness for `orchestrators_concat_invariant`: two one-day batches with
one signal each, evaluated concretely. -/
theorem orchestrators_concat_invariant_witness :
    get_long_frame_from_names (fun l _ => [⟨"A", [(l, 1)]⟩]) 0 20 10
        = .ok ⟨["A"], [(0, [some 1]), (10, [some 1])]⟩
    ∧ ((⟨["A"], [(0, [some 1]), (10, [some 1])]⟩ : Frame).rows.length
        = ((batch_interval 0 20 10).map
            (fun p => (buildFrame ((fun l _ => [⟨"A", [(l, 1)]⟩] :
              Int → Int → List SignalResult) p.1 p.2)).rows.length)).sum
       ∧ List.Pairwise (fun a b : Int => a ≤ b)
          ((⟨["A"], [(0, [some 1]), (10, [some 1])]⟩ : Frame).rows.map Prod.fst)) := by
  have hok : get_long_frame_from_names (fun l _ => [⟨"A", [(l, 1)]⟩]) 0 20 10
      = .ok ⟨["A"], [(0, [some 1]), (10, [some 1])]⟩ := by
    unfold get_long_frame_from_names
    have hb : batch_interval 0 20 10 = [(0, 10), (10, 20)] := by decide
    rw [hb]
    have hbf0 : buildFrame [⟨"A", [((0 : Int), (1 : Int))]⟩] = ⟨["A"], [(0, [some 1])]⟩ := by
      rw [buildFrame_eq]
      have : stitchFrames [⟨"A", [((0 : Int), (1 : Int))]⟩] = ⟨["A"], [(0, [some 1])]⟩ := by
        decide
      rw [this]
      unfold sortFrame
      rw [List.mergeSort_singleton]
    have hbf1 : buildFrame [⟨"A", [((10 : Int), (1 : Int))]⟩] = ⟨["A"], [(10, [some 1])]⟩ := by
      rw [buildFrame_eq]
      have : stitchFrames [⟨"A", [((10 : Int), (1 : Int))]⟩] = ⟨["A"], [(10, [some 1])]⟩ := by
        decide
      rw [this]
      unfold sortFrame
      rw [List.mergeSort_singleton]
    simp only [List.map_cons, List.map_nil, hbf0, hbf1]
    show (if List.isEmpty _ then _ else (concatFrames _).map sortFrame) = _
    rw [show List.filter (fun f => !f.isEmpty)
        [(⟨["A"], [(0, [some 1])]⟩ : Frame), ⟨["A"], [(10, [some 1])]⟩]
        = [⟨["A"], [(0, [some 1])]⟩, ⟨["A"], [(10, [some 1])]⟩] from by decide]
    rw [show concatFrames [(⟨["A"], [(0, [some 1])]⟩ : Frame), ⟨["A"], [(10, [some 1])]⟩]
        = .ok ⟨["A"], [(0, [some 1]), (10, [some 1])]⟩ from rfl]
    show Except.ok (sortFrame _) = _
    unfold sortFrame
    rw [List.mergeSort_of_sorted
      (by decide : List.Pairwise (fun a b => rowLE a b = true)
        [((0 : Int), [some (1 : Int)]), (10, [some 1])])]
  refine ⟨hok, ?_⟩
  exact (orchestrators_concat_invariant (fun l _ => [⟨"A", [(l, 1)]⟩]) 0 20 10).1 _ hok

/-- C9: if two per-batch tables are non-empty but have different column
sets, both orchestrators fail at the `pl.concat` step (vertical concat
requires identical schemas) instead of returning a row-wise union. -/
theorem orchestrators_schema_mismatch_raises
    (backend : Int → Int → List SignalResult) (start e maxI : Int)
    (p q : Int × Int)
    (hp : p ∈ batch_interval start e maxI) (hq : q ∈ batch_interval start e maxI)
    (hne1 : ¬(stitchFrames (backend p.1 p.2)).isEmpty)
    (hne2 : ¬(stitchFrames (backend q.1 q.2)).isEmpty)
    (hcols : (stitchFrames (backend p.1 p.2)).cols ≠ (stitchFrames (backend q.1 q.2)).cols) :
    (∃ msg, get_long_frame_from_names backend start e maxI = .error msg)
    ∧ (∃ msg, aget_frame_from_names backend start e maxI = .error msg) := by
  have hmk : ∀ (mk : List SignalResult → Frame),
      (∀ rs : List SignalResult, (mk rs).isEmpty = (stitchFrames rs).isEmpty) →
      (∀ rs : List SignalResult, (mk rs).cols = (stitchFrames rs).cols) →
      ∃ msg, (if ((batch_interval start e maxI).map
            (fun r => mk (backend r.1 r.2))).filter (fun f => !f.isEmpty) |>.isEmpty
          then Except.ok emptyFrame
          else (concatFrames (((batch_interval start e maxI).map
            (fun r => mk (backend r.1 r.2))).filter (fun f => !f.isEmpty))).map sortFrame)
          = .error msg := by
    intro mk hempty hcolseq
    have hmem1 : mk (backend p.1 p.2)
        ∈ ((batch_interval start e maxI).map (fun r => mk (backend r.1 r.2))).filter
            (fun f => !f.isEmpty) := by
      refine List.mem_filter.mpr ⟨List.mem_map_of_mem _ hp, ?_⟩
      simp [hempty, hne1]
    have hmem2 : mk (backend q.1 q.2)
        ∈ ((batch_interval start e maxI).map (fun r => mk (backend r.1 r.2))).filter
            (fun f => !f.isEmpty) := by
      refine List.mem_filter.mpr ⟨List.mem_map_of_mem _ hq, ?_⟩
      simp [hempty, hne2]
    have hnemismatch : (mk (backend p.1 p.2)).cols ≠ (mk (backend q.1 q.2)).cols := by
      rw [hcolseq, hcolseq]; exact hcols
    obtain ⟨msg, hmsg⟩ := concatFrames_error_of_mismatch hmem1 hmem2 hnemismatch
    refine ⟨msg, ?_⟩
    rw [if_neg ?_, hmsg]
    · rfl
    · intro hcontra
      rw [List.isEmpty_iff] at hcontra
      rw [hcontra] at hmem1
      cases hmem1
  constructor
  · exact hmk buildFrame
      (fun rs => by rw [buildFrame_eq]; exact sortFrame_isEmpty _)
      (fun rs => by rw [buildFrame_eq]; rfl)
  · exact hmk stitchFrames (fun _ => rfl) (fun _ => rfl)

/-- Witness for `orchestrators_schema_mismatch_raises`: signal "A" has data
only in the first one-day batch and "B" only in the second. -/
theorem orchestrators_schema_mismatch_raises_witness :
    ((0 : Int), (10 : Int)) ∈ batch_interval 0 20 10
    ∧ ((10 : Int), (20 : Int)) ∈ batch_interval 0 20 10
    ∧ (∃ msg, get_long_frame_from_names
        (fun l _ => if l == 0 then [⟨"A", [(l, 1)]⟩] else [⟨"B", [(l, 2)]⟩])
        0 20 10 = .error msg) := by
  have h := orchestrators_schema_mismatch_raises
    (fun l _ => if l == 0 then [⟨"A", [(l, 1)]⟩] else [⟨"B", [(l, 2)]⟩])
    0 20 10 (0, 10) (10, 20)
    (by decide) (by decide) (by decide) (by decide) (by decide)
  exact ⟨by decide, by decide, h.1⟩

/-! ### Equivalence of the two orchestrators -/

theorem sublist_flatten_of_sublist {α : Type} {L1 L2 : List (List α)}
    (h : L1.Sublist L2) : L1.flatten.Sublist L2.flatten := by
  induction h with
  | slnil => exact List.Sublist.refl _
  | cons a _ ih => exact ih.trans (List.sublist_append_right a _)
  | cons₂ a _ ih => exact List.Sublist.append_left ih a

/-- Two permuted lists that are both sorted by their key and have
pairwise-distinct keys are equal. -/
theorem eq_of_perm_of_sorted_of_nodup_keys {β : Type} {l : List (Int × β)} :
    ∀ {l' : List (Int × β)}, l.Perm l' →
      List.Pairwise (fun p q : Int × β => p.1 ≤ q.1) l →
      List.Pairwise (fun p q : Int × β => p.1 ≤ q.1) l' →
      (l.map Prod.fst).Nodup → l = l' := by
  induction l with
  | nil =>
    intro l' hperm _ _ _
    exact hperm.nil_eq
  | cons a t ih =>
    intro l' hperm hs hs' hn
    match l' with
    | [] => exact absurd hperm.eq_nil (by simp)
    | b :: t' =>
      have hab : a = b := by
        have hamem : a ∈ b :: t' := hperm.mem_iff.mp (by simp)
        have hbmem : b ∈ a :: t := hperm.mem_iff.mpr (by simp)
        rcases List.mem_cons.mp hamem with h1 | h1
        · exact h1
        rcases List.mem_cons.mp hbmem with h2 | h2
        · exact h2.symm
        have hba : b.1 ≤ a.1 := (List.pairwise_cons.mp hs').1 a h1
        have hab' : a.1 ≤ b.1 := (List.pairwise_cons.mp hs).1 b h2
        exact List.inj_on_of_nodup_map hn (by simp)
          (List.mem_cons_of_mem _ h2) (le_antisymm hab' hba)
      subst hab
      have htperm := hperm.cons_inv
      congr 1
      exact ih htperm (List.pairwise_cons.mp hs).2 (List.pairwise_cons.mp hs').2
        (by rw [List.map_cons, List.nodup_cons] at hn; exact hn.2)

theorem flatten_map_mergeSort_perm (L : List (List (Int × List (Option Int)))) :
    (L.map (fun rows => rows.mergeSort rowLE)).flatten.Perm L.flatten := by
  induction L with
  | nil => exact List.Perm.refl _
  | cons a L ih =>
    rw [List.map_cons, List.flatten_cons, List.flatten_cons]
    exact (List.mergeSort_perm a rowLE).append ih

/-- Pre-sorting each chunk of a concatenation does not change the final
sorted result, provided the keys are globally pairwise distinct. -/
theorem mergeSort_flatten_map (L : List (List (Int × List (Option Int))))
    (hnodup : (L.flatten.map Prod.fst).Nodup) :
    ((L.map (fun rows => rows.mergeSort rowLE)).flatten).mergeSort rowLE
      = L.flatten.mergeSort rowLE := by
  apply eq_of_perm_of_sorted_of_nodup_keys
  · exact (List.mergeSort_perm _ _).trans
      ((flatten_map_mergeSort_perm L).trans (List.mergeSort_perm _ _).symm)
  · exact (List.sorted_mergeSort rowLE_trans rowLE_total _).imp
      (fun h => by simpa [rowLE] using h)
  · exact (List.sorted_mergeSort rowLE_trans rowLE_total _).imp
      (fun h => by simpa [rowLE] using h)
  · have hperm : (((L.map (fun rows => rows.mergeSort rowLE)).flatten).mergeSort
        rowLE).Perm L.flatten :=
      (List.mergeSort_perm _ _).trans (flatten_map_mergeSort_perm L)
    exact (hperm.map Prod.fst).nodup_iff.mpr hnodup

/-- C2: given the same inputs and the same backend response for each
sub-range, the sequential and the concurrent orchestrator return identical
final tables (same rows, same order, same values); timestamps across the
per-batch tables are assumed globally pairwise distinct (batches tile
disjoint half-open windows). -/
theorem orchestrators_equivalent (backend : Int → Int → List SignalResult)
    (start e maxI : Int)
    (hnodup : ((((batch_interval start e maxI).map
        (fun p => stitchFrames (backend p.1 p.2))).map
        Frame.rows).flatten.map Prod.fst).Nodup) :
    get_long_frame_from_names backend start e maxI
      = aget_frame_from_names backend start e maxI := by
  have hseq : get_long_frame_from_names backend start e maxI
      = (if (((batch_interval start e maxI).map
            (fun p => buildFrame (backend p.1 p.2))).filter (fun f => !f.isEmpty)).isEmpty
         then Except.ok emptyFrame
         else (concatFrames (((batch_interval start e maxI).map
            (fun p => buildFrame (backend p.1 p.2))).filter
              (fun f => !f.isEmpty))).map sortFrame) := rfl
  have hasync : aget_frame_from_names backend start e maxI
      = (if (((batch_interval start e maxI).map
            (fun p => stitchFrames (backend p.1 p.2))).filter (fun f => !f.isEmpty)).isEmpty
         then Except.ok emptyFrame
         else (concatFrames (((batch_interval start e maxI).map
            (fun p => stitchFrames (backend p.1 p.2))).filter
              (fun f => !f.isEmpty))).map sortFrame) := rfl
  rw [hseq, hasync]
  have hmapeq : (batch_interval start e maxI).map (fun p => buildFrame (backend p.1 p.2))
      = ((batch_interval start e maxI).map
          (fun p => stitchFrames (backend p.1 p.2))).map sortFrame := by
    rw [List.map_map]
    simp only [buildFrame_eq]
    rfl
  rw [hmapeq]
  have hfilter : ((((batch_interval start e maxI).map
        (fun p => stitchFrames (backend p.1 p.2))).map sortFrame).filter
        (fun f => !f.isEmpty))
      = (((batch_interval start e maxI).map
          (fun p => stitchFrames (backend p.1 p.2))).filter
          (fun f => !f.isEmpty)).map sortFrame := by
    rw [List.filter_map]
    congr 1
    apply List.filter_congr
    intro g _
    show (!(sortFrame g).isEmpty) = !g.isEmpty
    rw [sortFrame_isEmpty]
  rw [hfilter]
  have hnodup' : ((((((batch_interval start e maxI).map
        (fun p => stitchFrames (backend p.1 p.2))).filter
        (fun f => !f.isEmpty)).map Frame.rows).flatten).map Prod.fst).Nodup := by
    have hsub1 : (((batch_interval start e maxI).map
        (fun p => stitchFrames (backend p.1 p.2))).filter
        (fun f => !f.isEmpty)).Sublist
        ((batch_interval start e maxI).map (fun p => stitchFrames (backend p.1 p.2))) :=
      List.filter_sublist _
    have hsub3 := sublist_flatten_of_sublist (hsub1.map Frame.rows)
    exact hnodup.sublist (hsub3.map Prod.fst)
  rcases hd : ((batch_interval start e maxI).map
      (fun p => stitchFrames (backend p.1 p.2))).filter (fun f => !f.isEmpty)
    with _ | ⟨d, rest⟩
  · rw [hd]
    rfl
  · rw [hd] at hnodup' ⊢
    rw [List.map_cons]
    rw [if_neg (by simp), if_neg (by simp)]
    have hcond : ((rest.map sortFrame).all (fun g => g.cols == (sortFrame d).cols))
        = (rest.all (fun g => g.cols == d.cols)) := by
      rw [List.all_map]
      rfl
    by_cases hall : (rest.all (fun g => g.cols == d.cols)) = true
    · have hc2 : concatFrames (d :: rest)
          = .ok ⟨d.cols, d.rows ++ (rest.map Frame.rows).flatten⟩ := by
        show (if (rest.all fun g => g.cols == d.cols) = true then _ else _) = _
        rw [if_pos hall]
      have hc1 : concatFrames (sortFrame d :: rest.map sortFrame)
          = .ok ⟨d.cols,
              (sortFrame d).rows ++ ((rest.map sortFrame).map Frame.rows).flatten⟩ := by
        show (if ((rest.map sortFrame).all fun g => g.cols == (sortFrame d).cols) = true
            then _ else _) = _
        rw [hcond, if_pos hall]
        rfl
      rw [hc1, hc2]
      show Except.ok (sortFrame _) = Except.ok (sortFrame _)
      congr 1
      show (⟨d.cols, List.mergeSort ((sortFrame d).rows
          ++ ((rest.map sortFrame).map Frame.rows).flatten) rowLE⟩ : Frame)
        = ⟨d.cols, List.mergeSort (d.rows ++ (rest.map Frame.rows).flatten) rowLE⟩
      congr 1
      have hrowsmap : (rest.map sortFrame).map Frame.rows
          = (rest.map Frame.rows).map (fun rows => rows.mergeSort rowLE) := by
        rw [List.map_map, List.map_map]
        rfl
      rw [hrowsmap]
      have := mergeSort_flatten_map (d.rows :: rest.map Frame.rows)
        (by exact hnodup')
      simpa [List.flatten_cons] using this
    · have hc2 : concatFrames (d :: rest) = .error "schema mismatch" := by
        show (if (rest.all fun g => g.cols == d.cols) = true then _ else _) = _
        rw [if_neg hall]
      have hc1 : concatFrames (sortFrame d :: rest.map sortFrame)
          = .error "schema mismatch" := by
        show (if ((rest.map sortFrame).all fun g => g.cols == (sortFrame d).cols) = true
            then _ else _) = _
        rw [hcond, if_neg hall]
      rw [hc1, hc2]

/-- Witness for `orchestrators_equivalent`: one signal, two one-day
batches. -/
theorem orchestrators_equivalent_witness :
    ((((batch_interval 0 20 10).map
        (fun p => stitchFrames ((fun l _ => [⟨"A", [(l, 1)]⟩] :
          Int → Int → List SignalResult) p.1 p.2))).map
        Frame.rows).flatten.map Prod.fst).Nodup
    ∧ get_long_frame_from_names (fun l _ => [⟨"A", [(l, 1)]⟩]) 0 20 10
        = aget_frame_from_names (fun l _ => [⟨"A", [(l, 1)]⟩]) 0 20 10 :=
  ⟨by decide, orchestrators_equivalent (fun l _ => [⟨"A", [(l, 1)]⟩]) 0 20 10 (by decide)⟩

/-! ### Tolerance of missing signals (C8) -/

theorem foldl_join_cols :
    ∀ (rest : List SignalResult) (g : Frame),
      (rest.foldl (fun acc s => joinFrames acc (singleFrame s)) g).cols
        = g.cols ++ rest.map SignalResult.name := by
  intro rest
  induction rest with
  | nil =>
    intro g
    simp
  | cons s rest ih =>
    intro g
    rw [List.foldl_cons, ih]
    show (g.cols ++ [s.name]) ++ rest.map SignalResult.name = _
    rw [List.append_assoc]
    rfl

theorem buildFrame_cols (results : List SignalResult) :
    (buildFrame results).cols
      = (results.filter (fun r => !r.values.isEmpty)).map SignalResult.name := by
  rw [buildFrame_eq, sortFrame_cols]
  unfold stitchFrames
  rcases hfil : results.filter (fun r => !r.values.isEmpty) with _ | ⟨r, rest⟩
  · simp only [hfil]
    rfl
  · simp only [hfil]
    rw [foldl_join_cols]
    rfl

/-- C8: a requested signal absent from the response simply has no column
(no error is raised — `get_frame_from_names`' stitching is total), so when
the backend only ever returns requested signals the output column set is a
subset of the requested names; a response empty for all signals yields the
empty `pl.DataFrame()`. -/
theorem get_frame_from_names_missing_tolerant (results : List SignalResult)
    (requested : List String)
    (hresp : ∀ r ∈ results, r.name ∈ requested) :
    (∀ c ∈ (buildFrame results).cols, c ∈ requested)
    ∧ (∀ n : String, n ∉ results.map SignalResult.name → n ∉ (buildFrame results).cols)
    ∧ ((∀ r ∈ results, r.values = []) → buildFrame results = emptyFrame) := by
  refine ⟨?_, ?_, ?_⟩
  · intro c hc
    rw [buildFrame_cols] at hc
    obtain ⟨r, hr, rfl⟩ := List.mem_map.mp hc
    exact hresp r ((List.filter_sublist _).mem hr)
  · intro n hn hc
    rw [buildFrame_cols] at hc
    obtain ⟨r, hr, rfl⟩ := List.mem_map.mp hc
    exact hn (List.mem_map_of_mem _ ((List.filter_sublist _).mem hr))
  · intro hall
    unfold buildFrame
    have hnil : results.filter (fun r => !r.values.isEmpty) = [] := by
      rw [List.filter_eq_nil_iff]
      intro r hr
      simp [hall r hr]
    simp only [hnil]

/-- Witness for `get_frame_from_names_missing_tolerant`: request
["A", "B"], response contains only "A"; and an all-empty response. -/
theorem get_frame_from_names_missing_tolerant_witness :
    (∀ r ∈ [(⟨"A", [(0, 1)]⟩ : SignalResult)], r.name ∈ ["A", "B"])
    ∧ (∀ c ∈ (buildFrame [(⟨"A", [(0, 1)]⟩ : SignalResult)]).cols, c ∈ ["A", "B"])
    ∧ "B" ∉ (buildFrame [(⟨"A", [(0, 1)]⟩ : SignalResult)]).cols
    ∧ buildFrame [(⟨"B", []⟩ : SignalResult)] = emptyFrame := by
  have h := get_frame_from_names_missing_tolerant [⟨"A", [(0, 1)]⟩] ["A", "B"] (by decide)
  have h2 := get_frame_from_names_missing_tolerant [⟨"B", []⟩] ["A", "B"] (by decide)
  refine ⟨by decide, h.1, h.2.1 "B" (by decide), h2.2.2 ?_⟩
  intro r hr
  rcases List.mem_singleton.mp hr with rfl
  rfl

/-! ## Single-batch fetch retry behavior
(`get_historical_data`, api.py:239-283)

The method is decorated with tenacity
`@retry(stop=stop_after_attempt(5), wait=wait_exponential_jitter(max=10,
jitter=3), before=_log_retry_attempt)` — with no `retry=` predicate, so
every exception triggers a retry. Its body raises `httpx.HTTPStatusError`
via `raise_for_status` for any status ≥ 400 (4xx and 5xx alike), a
transport error for network failures, and `JSONDecodeError` for
non-JSON bodies. Wall-clock backoff delays are not modelled. -/

inductive FetchError where
  | httpStatus (code : Nat)
  | network
  | jsonDecode
deriving DecidableEq

structure HttpResponse where
  status : Nat
  body : Option (List SignalResult)
deriving DecidableEq

/-- One `get_historical_data` attempt: POST (`.error ()` = transport
failure), then `raise_for_status`, then JSON decoding. -/
def oneAttempt (resp : Except Unit HttpResponse) :
    Except FetchError (List SignalResult) :=
  match resp with
  | .error _ => .error .network
  | .ok r =>
    if 400 ≤ r.status then .error (.httpStatus r.status)
    else
      match r.body with
      | some parsed => .ok parsed
      | none => .error .jsonDecode

/-- Tenacity retry loop at attempt number `n` with `rem` further attempts
allowed: any error is retried until the budget is gone, then the last
error propagates. Returns the result with the number of attempts made. -/
def runRetryAux {α : Type} (op : Nat → Except FetchError α) :
    Nat → Nat → Except FetchError α × Nat
  | n, 0 => (op n, n)
  | n, rem + 1 =>
    match op n with
    | .ok v => (.ok v, n)
    | .error _ => runRetryAux op (n + 1) rem

/-- `stop_after_attempt(attempts)`. -/
def runRetry {α : Type} (attempts : Nat) (op : Nat → Except FetchError α) :
    Except FetchError α × Nat :=
  runRetryAux op 1 (attempts - 1)

/-- `get_historical_data` under its retry decorator, against a backend
producing one HTTP outcome per attempt number. -/
def get_historical_data (backend : Nat → Except Unit HttpResponse) :
    Except FetchError (List SignalResult) × Nat :=
  runRetry 5 (fun n => oneAttempt (backend n))

theorem runRetryAux_spec {α : Type} (op : Nat → Except FetchError α) :
    ∀ (rem n : Nat),
      n ≤ (runRetryAux op n rem).2
      ∧ (runRetryAux op n rem).2 ≤ n + rem
      ∧ (runRetryAux op n rem).1 = op (runRetryAux op n rem).2
      ∧ (∀ m : Nat, n ≤ m → m < (runRetryAux op n rem).2 → ∃ ε, op m = .error ε)
      ∧ ((runRetryAux op n rem).2 < n + rem → ∃ v, (runRetryAux op n rem).1 = .ok v) := by
  intro rem
  induction rem with
  | zero =>
    intro n
    refine ⟨le_refl n, Nat.le_add_right n 0, rfl, ?_, ?_⟩
    · intro m h1 h2
      have h2' : m < n := h2
      omega
    · intro h
      have h' : n < n + 0 := h
      omega
  | succ rem ih =>
    intro n
    rcases hop : op n with ε | v
    · have hstep : runRetryAux op n (rem + 1) = runRetryAux op (n + 1) rem := by
        show (match op n with
          | .ok v => ((.ok v : Except FetchError α), n)
          | .error _ => runRetryAux op (n + 1) rem) = _
        rw [hop]
      rw [hstep]
      obtain ⟨ih1, ih2, ih3, ih4, ih5⟩ := ih (n + 1)
      refine ⟨by omega, by omega, ih3, ?_, ?_⟩
      · intro m h1 h2
        rcases Nat.eq_or_lt_of_le h1 with rfl | h1'
        · exact ⟨ε, hop⟩
        · exact ih4 m h1' h2
      · intro h
        exact ih5 (by omega)
    · have hstep : runRetryAux op n (rem + 1) = (.ok v, n) := by
        show (match op n with
          | .ok v => ((.ok v : Except FetchError α), n)
          | .error _ => runRetryAux op (n + 1) rem) = _
        rw [hop]
      rw [hstep]
      refine ⟨le_refl n, Nat.le_add_right n _, hop.symm, ?_, fun _ => ⟨v, rfl⟩⟩
      intro m h1 h2
      have h2' : m < n := h2
      omega

/-- C5 counterexample: a backend that always answers HTTP 404 (a 4xx,
"fatal" per the claim) is retried: `get_historical_data` makes 5 attempts
before re-raising, refuting "4xx/auth failures ... never retried". -/
theorem get_historical_data_4xx_retried_counterexample :
    get_historical_data (fun _ => .ok ⟨404, some []⟩)
      = (.error (.httpStatus 404), 5) := rfl

/-- C5 amended: `get_historical_data` raises `httpx.HTTPStatusError` for
any 4xx/5xx and transport/JSON errors otherwise, and its tenacity policy
retries every failure alike — bounded at 5 attempts (with exponential
jitter backoff, not modelled) — then re-raises the last error; no
transient/fatal distinction exists. The attempt count is between 1 and 5,
the result is the last attempt's outcome, every earlier attempt failed,
and stopping early implies success. -/
theorem get_historical_data_retry_behavior (backend : Nat → Except Unit HttpResponse) :
    1 ≤ (get_historical_data backend).2
    ∧ (get_historical_data backend).2 ≤ 5
    ∧ (get_historical_data backend).1
        = oneAttempt (backend (get_historical_data backend).2)
    ∧ (∀ m : Nat, 1 ≤ m → m < (get_historical_data backend).2 →
        ∃ ε, oneAttempt (backend m) = .error ε)
    ∧ ((get_historical_data backend).2 < 5 →
        ∃ v, (get_historical_data backend).1 = .ok v) := by
  have h := runRetryAux_spec (fun n => oneAttempt (backend n)) 4 1
  exact h

/-- Witness for `get_historical_data_retry_behavior`: persistent HTTP 500. -/
theorem get_historical_data_retry_behavior_witness :
    (get_historical_data (fun _ => .ok ⟨500, some []⟩)).2 = 5
    ∧ (∃ ε, oneAttempt ((fun _ => (.ok ⟨500, some []⟩ : Except Unit HttpResponse)) 2)
        = .error ε) := by
  have h := get_historical_data_retry_behavior (fun _ => .ok ⟨500, some []⟩)
  refine ⟨rfl, ?_⟩
  exact h.2.2.2.1 2 (by norm_num)
    (by rw [show (get_historical_data (fun _ => .ok ⟨500, some []⟩)).2 = 5 from rfl]
        norm_num)

/-! ## Adaptive timeout bisector (spec §4.5, §6) -/

inductive AdaptiveError where
  | recursionBudgetExceeded
deriving DecidableEq

/-- Modelled from the spec: split points are "rounded down to the nearest
whole minute" (one minute = 60 000 000 µs). -/
def roundDownMinute (t : Int) : Int := t - t % 60000000

/-- Modelled from the spec: the sources under src/ contain no
`fetch_range_adaptive` / adaptive timeout bisector — only §4.5/§6 of the
spec describe it. The attempt oracle maps a (start, end) range to
`some table` (success within the per-attempt timeout) or `none`
(timeout). On timeout with depth budget 0 it fails with
`RecursionBudgetExceededError`; otherwise it splits at the minute-rounded
midpoint, retries both halves with depth - 1, and concatenates
left-then-right; a degenerate (zero-span) range is not re-split. -/
def fetch_range_adaptive (attempt : Int → Int → Option Frame) :
    Nat → Int → Int → Except AdaptiveError Frame
  | 0, s, e =>
    match attempt s e with
    | some t => .ok t
    | none => .error .recursionBudgetExceeded
  | d + 1, s, e =>
    match attempt s e with
    | some t => .ok t
    | none =>
      if s = e then fetch_range_adaptive attempt d s e
      else
        (fetch_range_adaptive attempt d s (roundDownMinute ((s + e) / 2))).bind
          (fun lt =>
            (fetch_range_adaptive attempt d (roundDownMinute ((s + e) / 2)) e).map
              (fun rt => ⟨lt.cols, lt.rows ++ rt.rows⟩))

/-- C3 (spec-modelled): on timeout with no recursion budget left
`fetch_range_adaptive` fails with `RecursionBudgetExceededError`;
otherwise it splits at the midpoint rounded down to a whole minute into
left (start..mid) and right (mid..end) halves, retries both with the
depth decremented, and concatenates left-then-right; the rounding really
is "down to the nearest whole minute"; and with an always-firing timeout
and starting depth 1 the whole call fails with
`RecursionBudgetExceededError` after one split. -/
theorem fetch_range_adaptive_spec (attempt : Int → Int → Option Frame)
    (depth : Nat) (s e : Int) (htimeout : attempt s e = none) :
    (depth = 0 →
      fetch_range_adaptive attempt depth s e = .error .recursionBudgetExceeded)
    ∧ (∀ d : Nat, depth = d + 1 → s ≠ e →
        fetch_range_adaptive attempt depth s e
          = (fetch_range_adaptive attempt d s (roundDownMinute ((s + e) / 2))).bind
              (fun lt =>
                (fetch_range_adaptive attempt d (roundDownMinute ((s + e) / 2)) e).map
                  (fun rt => ⟨lt.cols, lt.rows ++ rt.rows⟩)))
    ∧ (∀ t : Int, roundDownMinute t % 60000000 = 0
        ∧ roundDownMinute t ≤ t ∧ t - roundDownMinute t < 60000000)
    ∧ fetch_range_adaptive (fun _ _ => none) 1 0 7200000000
        = .error .recursionBudgetExceeded := by
  refine ⟨?_, ?_, ?_, ?_⟩
  · intro hd
    subst hd
    have heq : fetch_range_adaptive attempt 0 s e
        = (match attempt s e with
           | some t => (.ok t : Except AdaptiveError Frame)
           | none => .error .recursionBudgetExceeded) := rfl
    rw [heq, htimeout]
  · intro d hd hse
    subst hd
    have heq : fetch_range_adaptive attempt (d + 1) s e
        = (match attempt s e with
           | some t => (.ok t : Except AdaptiveError Frame)
           | none =>
             if s = e then fetch_range_adaptive attempt d s e
             else
               (fetch_range_adaptive attempt d s (roundDownMinute ((s + e) / 2))).bind
                 (fun lt : Frame =>
                   (fetch_range_adaptive attempt d (roundDownMinute ((s + e) / 2)) e).map
                     (fun rt : Frame => (⟨lt.cols, lt.rows ++ rt.rows⟩ : Frame)))) := rfl
    rw [heq, htimeout]
    show (if s = e then fetch_range_adaptive attempt d s e
          else
            (fetch_range_adaptive attempt d s (roundDownMinute ((s + e) / 2))).bind
              (fun lt : Frame =>
                (fetch_range_adaptive attempt d (roundDownMinute ((s + e) / 2)) e).map
                  (fun rt : Frame => (⟨lt.cols, lt.rows ++ rt.rows⟩ : Frame))))
        = (fetch_range_adaptive attempt d s (roundDownMinute ((s + e) / 2))).bind
            (fun lt =>
              (fetch_range_adaptive attempt d (roundDownMinute ((s + e) / 2)) e).map
                (fun rt => ⟨lt.cols, lt.rows ++ rt.rows⟩))
    rw [if_neg hse]
  · intro t
    unfold roundDownMinute
    refine ⟨?_, ?_, ?_⟩ <;> omega
  · rfl

/-- Witness for `fetch_range_adaptive_spec`: an always-firing timeout at
depth 1 over a two-hour range. -/
theorem fetch_range_adaptive_spec_witness :
    ((fun (_ _ : Int) => (none : Option Frame)) 0 7200000000 = none)
    ∧ fetch_range_adaptive (fun _ _ => none) 1 0 7200000000
        = .error .recursionBudgetExceeded :=
  ⟨rfl, (fetch_range_adaptive_spec (fun _ _ => none) 1 0 7200000000 rfl).2.2.2⟩

end Pym2v
